import Mathlib

/-!
Shallow embedding of the incremental scroll-collection engine of the
meituan_pharmacy_scraper repository (src/core/state_store.py,
src/core/worker.py, src/core/exporter.py), together with theorems that
settle the frozen claims about it.

Machine integers are modelled as `Nat` (Python integers are unbounded and
all quantities involved are non-negative); Python `None`-or-value results
are modelled as `Option`; the Python `set` of collected keys is modelled
as a duplicate-free `List String` built by append-if-absent, whose
membership coincides with Python set membership.
-/

/-- Python whitespace characters recognised by `str.strip()` (the ASCII
subset, which is all the code ever produces). -/
def isPyWhitespace (c : Char) : Bool :=
  c = ' ' || c = '\t' || c = '\n' || c = '\r' || c = Char.ofNat 11 || c = Char.ofNat 12

/-- Python `str.strip()`: remove leading and trailing whitespace. -/
def pyStrip (s : String) : String :=
  String.mk (((s.toList.dropWhile isPyWhitespace).reverse.dropWhile isPyWhitespace).reverse)

/-- The mutable `state` dict of `StateStore` (state_store.py, constructor),
with every key of the Python dict as a field. -/
structure SessionState where
  current_task_index : Nat
  current_shop_name : String
  current_category_index : Nat
  current_category_name : String
  scroll_round : Nat
  collected_keys : List String
  collected_count : Nat
  last_update : String
  status : String
  all_categories : List String
  risk_control_hit : Bool
  current_poi : String
  switch_mode : String
  next_category : String
  boundary_divider_y : Nat
  boundary_products : List String
  verify_screen_count : Nat
deriving Repr, DecidableEq

/-- The initial `state` dict built in `StateStore.__init__` / `reset`. -/
def initialSessionState : SessionState :=
  { current_task_index := 0
    current_shop_name := ""
    current_category_index := 0
    current_category_name := ""
    scroll_round := 0
    collected_keys := []
    collected_count := 0
    last_update := ""
    status := "idle"
    all_categories := []
    risk_control_hit := false
    current_poi := ""
    switch_mode := "NORMAL"
    next_category := ""
    boundary_divider_y := 0
    boundary_products := []
    verify_screen_count := 0 }

/-- `StateStore`: the persisted-state dict plus the in-memory dedup set
(`collected_keys_set`), the latter modelled as a duplicate-free list whose
membership is Python set membership. -/
structure StateStore where
  state : SessionState
  collected_keys_set : List String
deriving Repr, DecidableEq

/-- The freshly constructed store (`StateStore.__init__`). -/
def initialStateStore : StateStore :=
  { state := initialSessionState, collected_keys_set := [] }

/-- `StateStore.generate_key` (state_store.py lines 60-84): the dedup key is
`shop_name.strip() + "|" + drug_name.strip()`; `category_name` and `price`
are accepted but unused. -/
def generate_key (shop_name _category_name drug_name _price : String) : String :=
  pyStrip shop_name ++ "|" ++ pyStrip drug_name

/-- `StateStore.is_collected` (state_store.py lines 86-96). -/
def is_collected (st : StateStore) (key : String) : Bool :=
  key ∈ st.collected_keys_set

/-- `StateStore.add_collected` (state_store.py lines 98-108): if the key is
new, add it to the set, append it to the serializable list, and set the
`collected_count` field to the size of the set. -/
def add_collected (st : StateStore) (key : String) : StateStore :=
  if key ∈ st.collected_keys_set then st
  else
    { state :=
        { st.state with
          collected_keys := st.state.collected_keys ++ [key]
          collected_count := (st.collected_keys_set ++ [key]).length }
      collected_keys_set := st.collected_keys_set ++ [key] }

/-- The `collected_count` property (state_store.py lines 243-245): the size
of the in-memory set. -/
def collected_count_prop (st : StateStore) : Nat :=
  st.collected_keys_set.length

/-- `StateStore.mark_risk_control` (state_store.py lines 194-203): set
`risk_control_hit` and store the full category list (the subsequent
`save()` is I/O and does not change the in-memory state). -/
def mark_risk_control (st : StateStore) (categories : List String) : StateStore :=
  { st with state := { st.state with risk_control_hit := true, all_categories := categories } }

/-- Python `set(list)`: the set built from a list, modelled as the
duplicate-free list obtained by inserting each element if absent. -/
def pySetOfList (l : List String) : List String :=
  l.foldl (fun s k => if k ∈ s then s else s ++ [k]) []

/-- `StateStore.save` (state_store.py lines 110-118): the document written
to disk is the `state` dict with `last_update` set to the current time. -/
def saveDoc (st : StateStore) (now : String) : SessionState :=
  { st.state with last_update := now }

/-- `StateStore.load` (state_store.py lines 120-143) applied to a document
produced by `save`: `state.update(loaded)` overwrites every field (the
saved document carries every key), and the dedup set is rebuilt as
`set(state["collected_keys"])`. -/
def loadStore (doc : SessionState) : StateStore :=
  { state := doc, collected_keys_set := pySetOfList doc.collected_keys }

/-- `DrugRecord` (exporter.py lines 15-44). -/
structure DrugRecord where
  category_name : String
  drug_name : String
  monthly_sales : String
  price : String
deriving Repr, DecidableEq

/-- Python `re.search(r'(\d+)', s)`: the first maximal digit group of `s`,
if any. -/
def firstDigitGroup (s : String) : Option String :=
  match s.toList.dropWhile (fun c => !c.isDigit) with
  | [] => none
  | c :: rest => some (String.mk ((c :: rest).takeWhile Char.isDigit))

/-- `create_drug_record` (exporter.py lines 237-275): normalize the sales
text to `"月售" + N` where `N` is its first digit group (`"0"` when the
text is empty, whitespace, or digit-free), strip the price and remove
currency signs, and trim the category and drug names. -/
def create_drug_record (category_name drug_name monthly_sales price : String) : DrugRecord :=
  let num :=
    if monthly_sales = "" then "0"
    else if pyStrip monthly_sales = "" then "0"
    else (firstDigitGroup monthly_sales).getD "0"
  let price2 :=
    if price = "" then price
    else String.mk ((pyStrip price).toList.filter (fun c => c ≠ '¥' && c ≠ '￥'))
  { category_name := pyStrip category_name
    drug_name := pyStrip drug_name
    monthly_sales := "月售" ++ num
    price := price2 }

/-- Python substring containment `sub in hay` over character lists. -/
def containsSub (hay sub : List Char) : Bool :=
  match hay with
  | [] => sub.isEmpty
  | c :: rest => sub.isPrefixOf (c :: rest) || containsSub rest sub

/-- Python `re.search(r'月售\s*(\d+)', t)`: scan for the leftmost position
where `月售`, optional whitespace, and at least one digit match; the
captured group is that digit run. -/
def matchMonthSold : List Char → Option (List Char)
  | [] => none
  | c :: rest =>
    if c = '月' then
      match rest with
      | [] => none
      | d :: rest2 =>
        if d = '售' then
          let ds := (rest2.dropWhile isPyWhitespace).takeWhile Char.isDigit
          if ds.isEmpty then matchMonthSold rest else some ds
        else matchMonthSold rest
    else matchMonthSold rest

/-- The sales-extraction slice of `_collect_products_by_structure`
(worker.py lines 2684-2694): walk the card container's texts; skip the
price text itself; whenever a text contains the monthly-sold marker `月售`
and the regex captures a digit group, overwrite the running result (the
loop keeps the last match); the initial value is `"0"`. -/
def extractSales (texts : List String) (priceText : String) : String :=
  texts.foldl
    (fun acc t =>
      if t = priceText then acc
      else if containsSub t.toList "月售".toList then
        match matchMonthSold t.toList with
        | some ds => String.mk ds
        | none => acc
      else acc)
    "0"

/-- Python `str.replace(sub, "")` for a non-empty pattern: remove every
non-overlapping occurrence, scanning left to right.  The fuel argument
(the list length at the top-level call) keeps the recursion structural;
each step consumes at least one character, so the fuel never runs out. -/
def removeAllCharsAux (sub : List Char) : Nat → List Char → List Char
  | _, [] => []
  | 0, l => l
  | fuel + 1, c :: rest =>
    if sub.isPrefixOf (c :: rest) then removeAllCharsAux sub fuel (List.drop (sub.length - 1) rest)
    else c :: removeAllCharsAux sub fuel rest

/-- Python `str.replace(sub, "")` for a non-empty pattern. -/
def removeAllChars (sub : List Char) (l : List Char) : List Char :=
  removeAllCharsAux sub l.length l

/-- A truncation trigger of `_clean_product_name` (worker.py line 3266):
the regex class `[\[一-龥]`, i.e. a literal `[` or a CJK
character in U+4E00..U+9FA5. -/
def isTruncChar (c : Char) : Bool :=
  c = '[' || (decide (0x4e00 ≤ c.toNat) && decide (c.toNat ≤ 0x9fa5))

/-- `re.search` position of the first truncation trigger. -/
def firstTruncIdx : List Char → Option Nat
  | [] => none
  | c :: rest => if isTruncChar c then some 0 else (firstTruncIdx rest).map (· + 1)

/-- The decorative-marker removal phase of `_clean_product_name`
(worker.py lines 3258-3262): the prefix list is `["健康年"]`; when the
marker occurs in the name, every occurrence is removed and the result is
whitespace-trimmed. -/
def stripDecorativeMarkers (name : String) : String :=
  if containsSub name.toList "健康年".toList then
    pyStrip (String.mk (removeAllChars "健康年".toList name.toList))
  else name

/-- `_clean_product_name` (worker.py lines 3246-3273): empty names are
returned as is; otherwise remove the decorative marker, then slice from
the first `[`-or-CJK character when one exists. -/
def cleanProductName (name : String) : String :=
  if name = "" then name
  else
    let n1 := stripDecorativeMarkers name
    match firstTruncIdx n1.toList with
    | some i => String.mk (n1.toList.drop i)
    | none => n1

/-- A detected category-title match (`_detect_all_category_titles_on_screen`
output, already sorted by Y ascending at worker.py line 2495). -/
structure CategoryTitle where
  name : String
  y : Nat
deriving Repr, DecidableEq

/-- A vertical category zone (worker.py `_build_category_zones` output). -/
structure CategoryZone where
  name : String
  y_start : Nat
  y_end : Nat
deriving Repr, DecidableEq

/-- `_build_category_zones` (worker.py lines 2503-2534): each title starts
a zone at its own Y; the zone ends at the next title's Y, or at the
screen height for the last title. -/
def buildCategoryZones (titles : List CategoryTitle) (screenHeight : Nat) : List CategoryZone :=
  match titles with
  | [] => []
  | t :: rest =>
    let yEnd :=
      match rest with
      | [] => screenHeight
      | t2 :: _ => t2.y
    { name := t.name, y_start := t.y, y_end := yEnd } :: buildCategoryZones rest screenHeight

/-- `_find_category_by_y` (worker.py lines 2536-2561): no zones means the
fallback category; otherwise the first zone whose half-open interval
contains `y`; otherwise the last zone's name when `y` lies at or below its
start; otherwise the fallback. -/
def findCategoryByY (y : Nat) (zones : List CategoryZone) (fallback : String) : String :=
  match zones with
  | [] => fallback
  | z0 :: zs =>
    match (z0 :: zs).find? (fun z => decide (z.y_start ≤ y) && decide (y < z.y_end)) with
    | some z => z.name
    | none =>
      match (z0 :: zs).getLast? with
      | some zl => if zl.y_start ≤ y then zl.name else fallback
      | none => fallback

/-- The category-attribution slice of `_collect_products_by_structure`
(worker.py lines 2734-2757) for one product at `priceY`: smart zones take
priority; else in boundary mode (with a positive divider) items above the
divider keep the current category and items below it go to the next
category, being skipped (`none`) when the next category is unknown; the
front-row protection then re-assigns any item in the top 35% of the
screen back to the current category when no zones were available.  The
source compares `price_y < screen_height * 0.35` in floating point; it is
modelled exactly as `100 * priceY < 35 * screenHeight`. -/
def attributeCategory (categoryZones : List CategoryZone) (categoryName : String)
    (mode : String) (boundaryY : Nat) (nextCategory : String)
    (screenHeight : Nat) (priceY : Nat) : Option String :=
  let target? : Option String :=
    if categoryZones ≠ [] then some (findCategoryByY priceY categoryZones categoryName)
    else if mode = "BOUNDARY" ∧ 0 < boundaryY then
      if priceY < boundaryY then some categoryName
      else if nextCategory = "" then none
      else some nextCategory
    else some categoryName
  match target? with
  | none => none
  | some target =>
    if categoryZones = [] ∧ 100 * priceY < 35 * screenHeight ∧ target ≠ categoryName then
      some categoryName
    else some target

/-- The last index of a record named `anchorName` among the final eight
records (`_perform_retroactive_correction`, worker.py lines 2942-2951:
`start_idx = max(0, len - 8)` and a descending scan). -/
def findAnchorIdx (records : List DrugRecord) (anchorName : String) : Option Nat :=
  let startIdx := records.length - 8
  ((List.range records.length).filter fun i =>
      decide (startIdx ≤ i) &&
        match records.get? i with
        | some r => r.drug_name == anchorName
        | none => false).getLast?

/-- The forward walk of `_perform_retroactive_correction` (worker.py lines
2960-2975): stop at the first record whose category is neither the
current category, the next category, nor the unknown marker `未知分类`;
otherwise rewrite any category differing from the next category and count
it. -/
def correctFrom (currentCat nextCat : String) : List DrugRecord → List DrugRecord × Nat
  | [] => ([], 0)
  | r :: rest =>
    if r.category_name ≠ currentCat ∧ r.category_name ≠ nextCat ∧ r.category_name ≠ "未知分类" then
      (r :: rest, 0)
    else if r.category_name ≠ nextCat then
      let p := correctFrom currentCat nextCat rest
      ({ r with category_name := nextCat } :: p.1, p.2 + 1)
    else
      let p := correctFrom currentCat nextCat rest
      (r :: p.1, p.2)

/-- `_perform_retroactive_correction` (worker.py lines 2925-2986): the pair
of the resulting record list and the Python return value.  The source
returns `fix_count` only under `if fix_count > 0:`; when the anchor is
found but nothing is reassigned, control falls off the end of the
function and Python returns `None` (modelled as `none`).  An empty record
list or a missing anchor returns `0`. -/
def retroCorrect (records : List DrugRecord) (anchorName currentCat nextCat : String) :
    List DrugRecord × Option Nat :=
  if records = [] then (records, some 0)
  else
    match findAnchorIdx records anchorName with
    | none => (records, some 0)
    | some foundIdx =>
      let p := correctFrom currentCat nextCat (records.drop (foundIdx + 1))
      (records.take (foundIdx + 1) ++ p.1, if 0 < p.2 then some p.2 else none)

/-- An attributed product candidate about to enter the dedup-and-accept
loop of `_collect_products_by_structure` (worker.py lines 2759-2787). -/
structure ProductCand where
  category : String
  name : String
  sales : String
  price : String
deriving Repr, DecidableEq

/-- The dedup key computed for a candidate (worker.py lines 2760-2761). -/
def prodKey (shop : String) (p : ProductCand) : String :=
  generate_key shop p.category p.name p.price

/-- The dedup-and-accept loop of `_collect_products_by_structure`
(worker.py lines 2759-2787): per candidate, skip keys already seen in
this snapshot (`processed_keys`), skip keys already collected for the
shop, and otherwise append the created record and mark the key
collected. -/
def acceptLoop (shop : String) :
    StateStore → List DrugRecord → List String → List ProductCand →
      StateStore × List DrugRecord
  | st, records, _processed, [] => (st, records)
  | st, records, processed, p :: rest =>
    let key := prodKey shop p
    if key ∈ processed then acceptLoop shop st records processed rest
    else
      let processed2 := processed ++ [key]
      if is_collected st key then acceptLoop shop st records processed2 rest
      else
        acceptLoop shop (add_collected st key)
          (records ++ [create_drug_record p.category p.name p.sales p.price]) processed2 rest

/-- One snapshot through the extraction-and-accept pipeline: the loop with
a fresh per-snapshot `processed_keys` set. -/
def processSnapshot (shop : String) (st : StateStore) (records : List DrugRecord)
    (prods : List ProductCand) : StateStore × List DrugRecord :=
  acceptLoop shop st records [] prods

/-- Consistency between the in-memory dedup set and the serializable list
and counter of `StateStore`. -/
def storeConsistent (st : StateStore) : Prop :=
  st.collected_keys_set = st.state.collected_keys ∧
    st.collected_keys_set.Nodup ∧
    st.state.collected_count = st.collected_keys_set.length

/-- Outcome of the zero-new-data decision of one loop iteration of
`_collect_all_categories` (worker.py lines 1028-1066). -/
inductive IterOutcome where
  | next (noNewCount : Nat)
  | riskPause
  | completeShop
deriving Repr, DecidableEq

/-- The worker-visible state threaded through the decision. -/
structure IterState where
  store : StateStore
  workerStatus : String
deriving Repr, DecidableEq

/-- The dynamic acceptance threshold (worker.py line 1030): 10 on the last
known category, the configured `no_new_data_threshold` otherwise. -/
def currentThreshold (isLastCategory : Bool) (noNewThreshold : Nat) : Nat :=
  if isLastCategory then 10 else noNewThreshold

/-- The zero-new-data bookkeeping of one iteration (worker.py lines
1028-1066): with no new items the counter rises; at the threshold a
non-last category marks risk control and pauses the worker, while the
last category completes the shop; any new item resets the counter. -/
def noNewDataStep (isLastCategory : Bool) (noNewThreshold : Nat) (categories : List String)
    (s : IterState) (newCount noNewCount : Nat) : IterOutcome × IterState :=
  let thr := currentThreshold isLastCategory noNewThreshold
  if newCount = 0 then
    let n2 := noNewCount + 1
    if thr ≤ n2 then
      if isLastCategory then (IterOutcome.completeShop, s)
      else
        (IterOutcome.riskPause,
          { store := mark_risk_control s.store categories, workerStatus := "paused" })
    else (IterOutcome.next n2, s)
  else (IterOutcome.next 0, s)

/-- Run `n` consecutive zero-new-item iterations of the decision, starting
from the given counter, stopping at the first terminal outcome. -/
def runZeroIters (isLastCategory : Bool) (noNewThreshold : Nat) (categories : List String) :
    Nat → Nat → IterState → IterOutcome × IterState
  | 0, noNewCount, s => (IterOutcome.next noNewCount, s)
  | n + 1, noNewCount, s =>
    match noNewDataStep isLastCategory noNewThreshold categories s 0 noNewCount with
    | (IterOutcome.next m, s2) => runZeroIters isLastCategory noNewThreshold categories n m s2
    | r => r

theorem pySetOfList_mem (l : List String) (k : String) :
    k ∈ pySetOfList l ↔ k ∈ l := by
  suffices h : ∀ acc : List String, k ∈ l.foldl (fun s k => if k ∈ s then s else s ++ [k]) acc ↔ k ∈ acc ∨ k ∈ l by
    simpa [pySetOfList] using h []
  induction l with
  | nil => intro acc; simp
  | cons a t ih =>
    intro acc
    by_cases ha : a ∈ acc
    · simp [List.foldl_cons, ha, ih]
      constructor
      · rintro (h | h)
        · exact Or.inl h
        · exact Or.inr (Or.inr h)
      · rintro (h | h | h)
        · exact Or.inl h
        · exact Or.inl (h ▸ ha)
        · exact Or.inr h
    · simp [List.foldl_cons, ha, ih]
      constructor
      · rintro ((h | h) | h)
        · exact Or.inl h
        · exact Or.inr (Or.inl h)
        · exact Or.inr (Or.inr h)
      · rintro (h | h | h)
        · exact Or.inl (Or.inl h)
        · exact Or.inl (Or.inr h)
        · exact Or.inr h

theorem add_collected_mem (st : StateStore) (k k2 : String) :
    k2 ∈ (add_collected st k).collected_keys_set ↔
      k2 ∈ st.collected_keys_set ∨ k2 = k := by
  unfold add_collected
  by_cases hk : k ∈ st.collected_keys_set
  · simp only [if_pos hk]
    constructor
    · exact Or.inl
    · rintro (h | rfl)
      · exact h
      · exact hk
  · simp [if_neg hk]

theorem add_collected_consistent (st : StateStore) (k : String) (h : storeConsistent st) :
    storeConsistent (add_collected st k) := by
  obtain ⟨h1, h2, h3⟩ := h
  unfold add_collected
  by_cases hk : k ∈ st.collected_keys_set
  · simp only [if_pos hk]
    exact ⟨h1, h2, h3⟩
  · simp only [if_neg hk]
    refine ⟨by rw [h1], ?_, rfl⟩
    rw [List.nodup_append]
    refine ⟨h2, List.nodup_singleton k, ?_⟩
    intro a ha hb
    rw [List.mem_singleton] at hb
    exact hk (hb ▸ ha)

theorem foldl_add_collected_consistent (keys : List String) (st : StateStore)
    (h : storeConsistent st) : storeConsistent (keys.foldl add_collected st) := by
  induction keys generalizing st with
  | nil => exact h
  | cons k rest ih => exact ih _ (add_collected_consistent st k h)

/-- Claim C5 counterexample: with padded shop name `" A "`, `generate_key`
returns `"A|B"`, not the literal concatenation `shopName + "|" + drugName`
= `" A |B"`. -/
theorem c5_counterexample :
    generate_key " A " "catX" "B" "9.9" = "A|B" ∧
      (" A " ++ "|" ++ "B" : String) = " A |B" ∧ ("A|B" : String) ≠ " A |B" := by
  exact ⟨by decide, rfl, by decide⟩

/-- Claim C5 (amended): the dedup key is derived deterministically as
`strip(shopName) + "|" + strip(drugName)` — whitespace-trimmed parts — and
is invariant under any change to the `categoryName` and `price`
arguments. -/
theorem c5_key_stability :
    ∀ shop cat cat2 drug price price2 : String,
      generate_key shop cat drug price = generate_key shop cat2 drug price2 ∧
        generate_key shop cat drug price = pyStrip shop ++ "|" ++ pyStrip drug :=
  fun _ _ _ _ _ _ => ⟨rfl, rfl⟩

/-- Claim C10: after any sequence of `add_collected` calls from the fresh
store, the serializable `collected_keys` list has no duplicates, its
length equals the size of `collected_keys_set`, and both the persisted
`collected_count` field and the `collected_count` property equal that
size; `add_collected` on an already-collected key leaves the store
unchanged. -/
theorem c10_state_store_consistency :
    ∀ keys : List String,
      ((keys.foldl add_collected initialStateStore).state.collected_keys.Nodup ∧
        (keys.foldl add_collected initialStateStore).state.collected_keys.length
          = (keys.foldl add_collected initialStateStore).collected_keys_set.length ∧
        (keys.foldl add_collected initialStateStore).state.collected_count
          = (keys.foldl add_collected initialStateStore).collected_keys_set.length ∧
        collected_count_prop (keys.foldl add_collected initialStateStore)
          = (keys.foldl add_collected initialStateStore).collected_keys_set.length) ∧
      ∀ (st : StateStore) (k : String), is_collected st k = true → add_collected st k = st := by
  intro keys
  obtain ⟨h1, h2, h3⟩ :=
    foldl_add_collected_consistent keys initialStateStore ⟨rfl, List.nodup_nil, rfl⟩
  refine ⟨⟨by rw [← h1]; exact h2, by rw [← h1], h3, rfl⟩, ?_⟩
  intro st k hk
  simp only [is_collected, decide_eq_true_eq] at hk
  simp [add_collected, hk]

/-- Witness for claim C10 at the singleton store: re-adding the collected
key `"S|n"` is the identity. -/
theorem c10_state_store_consistency_witness :
    add_collected { state := initialSessionState, collected_keys_set := ["S|n"] } "S|n"
      = { state := initialSessionState, collected_keys_set := ["S|n"] } :=
  (c10_state_store_consistency []).2
    { state := initialSessionState, collected_keys_set := ["S|n"] } "S|n" (by decide)

theorem acceptLoop_mono (shop : String) (prods : List ProductCand) :
    ∀ (st : StateStore) (records : List DrugRecord) (processed : List String) (k : String),
      is_collected st k = true →
      is_collected (acceptLoop shop st records processed prods).1 k = true := by
  induction prods with
  | nil => intro st records processed k h; exact h
  | cons p rest ih =>
    intro st records processed k h
    simp only [acceptLoop]
    by_cases h1 : prodKey shop p ∈ processed
    · simp only [if_pos h1]
      exact ih st records processed k h
    · simp only [if_neg h1]
      by_cases h2 : is_collected st (prodKey shop p) = true
      · simp only [h2, if_true]
        exact ih st records _ k h
      · simp only [Bool.not_eq_true] at h2
        simp only [h2, Bool.false_eq_true, if_false]
        apply ih
        simp only [is_collected, decide_eq_true_eq] at h ⊢
        exact (add_collected_mem st (prodKey shop p) k).mpr (Or.inl h)

theorem acceptLoop_skips (shop : String) (prods : List ProductCand) :
    ∀ (st : StateStore) (records : List DrugRecord) (processed : List String),
      (∀ p ∈ prods, is_collected st (prodKey shop p) = true) →
      acceptLoop shop st records processed prods = (st, records) := by
  induction prods with
  | nil => intro st records processed _; rfl
  | cons p rest ih =>
    intro st records processed h
    have hp := h p (List.mem_cons_self p rest)
    have hrest : ∀ q ∈ rest, is_collected st (prodKey shop q) = true :=
      fun q hq => h q (List.mem_cons_of_mem p hq)
    simp only [acceptLoop]
    by_cases h1 : prodKey shop p ∈ processed
    · simp only [if_pos h1]
      exact ih st records processed hrest
    · simp only [if_neg h1, hp, if_true]
      exact ih st records _ hrest

theorem acceptLoop_collects (shop : String) (prods : List ProductCand) :
    ∀ (st : StateStore) (records : List DrugRecord) (processed : List String),
      (∀ k ∈ processed, is_collected st k = true) →
      ∀ p ∈ prods,
        is_collected (acceptLoop shop st records processed prods).1 (prodKey shop p) = true := by
  induction prods with
  | nil => intro st records processed _ p hp; cases hp
  | cons q rest ih =>
    intro st records processed hproc p hp
    simp only [acceptLoop]
    by_cases h1 : prodKey shop q ∈ processed
    · simp only [if_pos h1]
      rcases List.mem_cons.mp hp with rfl | hp2
      · exact acceptLoop_mono shop rest st records processed _ (hproc _ h1)
      · exact ih st records processed hproc p hp2
    · simp only [if_neg h1]
      by_cases h2 : is_collected st (prodKey shop q) = true
      · simp only [h2, if_true]
        have hproc2 : ∀ k ∈ processed ++ [prodKey shop q], is_collected st k = true := by
          intro k hk
          rcases List.mem_append.mp hk with hk | hk
          · exact hproc k hk
          · rw [List.mem_singleton] at hk
            exact hk ▸ h2
        rcases List.mem_cons.mp hp with rfl | hp2
        · exact acceptLoop_mono shop rest st records _ _ h2
        · exact ih st records _ hproc2 p hp2
      · simp only [Bool.not_eq_true] at h2
        simp only [h2, Bool.false_eq_true, if_false]
        have hcoll : is_collected (add_collected st (prodKey shop q)) (prodKey shop q) = true := by
          simp only [is_collected, decide_eq_true_eq]
          exact (add_collected_mem st _ _).mpr (Or.inr rfl)
        have hproc2 : ∀ k ∈ processed ++ [prodKey shop q],
            is_collected (add_collected st (prodKey shop q)) k = true := by
          intro k hk
          rcases List.mem_append.mp hk with hk | hk
          · have := hproc k hk
            simp only [is_collected, decide_eq_true_eq] at this ⊢
            exact (add_collected_mem st _ _).mpr (Or.inl this)
          · rw [List.mem_singleton] at hk
            exact hk ▸ hcoll
        rcases List.mem_cons.mp hp with rfl | hp2
        · exact acceptLoop_mono shop rest _ _ _ _ hcoll
        · exact ih _ _ _ hproc2 p hp2

/-- Claim C4: a key marked collected is never re-emitted — processing a
snapshot whose products' keys are all collected changes nothing, and
running the extraction-and-accept pipeline twice on the same snapshot
yields the state, records, and record count of running it once. -/
theorem c4_dedup_idempotence :
    ∀ (shop : String) (st : StateStore) (records : List DrugRecord) (prods : List ProductCand),
      ((∀ p ∈ prods, is_collected st (prodKey shop p) = true) →
          processSnapshot shop st records prods = (st, records)) ∧
        processSnapshot shop (processSnapshot shop st records prods).1
            (processSnapshot shop st records prods).2 prods
          = processSnapshot shop st records prods ∧
        (processSnapshot shop (processSnapshot shop st records prods).1
            (processSnapshot shop st records prods).2 prods).2.length
          = (processSnapshot shop st records prods).2.length := by
  intro shop st records prods
  have hall : ∀ p ∈ prods,
      is_collected (processSnapshot shop st records prods).1 (prodKey shop p) = true :=
    acceptLoop_collects shop prods st records [] (by intro k hk; cases hk)
  have htwice : processSnapshot shop (processSnapshot shop st records prods).1
      (processSnapshot shop st records prods).2 prods
      = processSnapshot shop st records prods := by
    rw [processSnapshot, acceptLoop_skips shop prods _ _ [] hall]
  exact ⟨fun h => acceptLoop_skips shop prods st records [] h, htwice, by rw [htwice]⟩

/-- Witness for claim C4: processing the snapshot `[p]` whose key is
already collected leaves the singleton store unchanged. -/
theorem c4_dedup_idempotence_witness :
    processSnapshot "S" { state := initialSessionState, collected_keys_set := ["S|n"] } []
        [{ category := "A", name := "n", sales := "月售3", price := "9.9" }]
      = ({ state := initialSessionState, collected_keys_set := ["S|n"] }, []) :=
  (c4_dedup_idempotence "S" { state := initialSessionState, collected_keys_set := ["S|n"] } []
      [{ category := "A", name := "n", sales := "月售3", price := "9.9" }]).1
    (by intro p hp; rw [List.mem_singleton] at hp; subst hp; decide)

/-- Claim C7: session state round-trips losslessly through persistence —
loading the saved document restores every field (the saved document being
the state with its `last_update` stamp), the `collectedKeys` list is
reconstructed into a set with the same membership, and resuming never
re-emits a key present in the persisted list. -/
theorem c7_session_roundtrip :
    ∀ (st : StateStore) (now : String),
      (∀ k, k ∈ st.collected_keys_set ↔ k ∈ st.state.collected_keys) →
      (loadStore (saveDoc st now)).state = { st.state with last_update := now } ∧
        (∀ k, is_collected (loadStore (saveDoc st now)) k = is_collected st k) ∧
        ∀ (shop : String) (records : List DrugRecord) (prods : List ProductCand),
          (∀ p ∈ prods, prodKey shop p ∈ (saveDoc st now).collected_keys) →
          processSnapshot shop (loadStore (saveDoc st now)) records prods
            = (loadStore (saveDoc st now), records) := by
  intro st now hinv
  refine ⟨rfl, ?_, ?_⟩
  · intro k
    simp only [is_collected, loadStore, saveDoc, decide_eq_decide]
    rw [pySetOfList_mem]
    exact (hinv k).symm
  · intro shop records prods hp
    apply acceptLoop_skips
    intro p hpp
    simp only [is_collected, loadStore, decide_eq_true_eq]
    rw [pySetOfList_mem]
    exact hp p hpp

/-- Witness for claim C7 at a mid-shop store with collected keys `k1`,
`k2`: the loaded state equals the saved document. -/
theorem c7_session_roundtrip_witness :
    (loadStore (saveDoc
        { state := { initialSessionState with collected_keys := ["k1", "k2"], collected_count := 2 }
          collected_keys_set := ["k1", "k2"] } "2026-10-12 00:00:00")).state
      = { ({ initialSessionState with collected_keys := ["k1", "k2"], collected_count := 2 }
            : SessionState) with last_update := "2026-10-12 00:00:00" } :=
  (c7_session_roundtrip
      { state := { initialSessionState with collected_keys := ["k1", "k2"], collected_count := 2 }
        collected_keys_set := ["k1", "k2"] } "2026-10-12 00:00:00"
      (fun _ => Iff.rfl)).1

/-- Claim C1 evidence: on the spec's own bounded-scope scenario
`[A1, A2, A3 (cat A), B1 (cat C)]` with anchor `A3`, correcting `A → B`
finds the anchor, stops at the third-category record `B1`, modifies no
record — and then returns Python `None` (the source only returns
`fix_count` under `if fix_count > 0`), not the count `0` promised by its
`-> int` annotation and docstring.  The second conjunct shows the
intended positive path: with a record `X1` between the anchor and `B1`,
exactly `X1` is reassigned and the count `1` is returned. -/
theorem c1_retroactive_correction_eval :
    retroCorrect
        [⟨"A", "A1", "月售1", "1"⟩, ⟨"A", "A2", "月售1", "1"⟩,
          ⟨"A", "A3", "月售1", "1"⟩, ⟨"C", "B1", "月售1", "1"⟩]
        "A3" "A" "B"
      = ([⟨"A", "A1", "月售1", "1"⟩, ⟨"A", "A2", "月售1", "1"⟩,
          ⟨"A", "A3", "月售1", "1"⟩, ⟨"C", "B1", "月售1", "1"⟩], none) ∧
    retroCorrect
        [⟨"A", "A1", "月售1", "1"⟩, ⟨"A", "A3", "月售1", "1"⟩,
          ⟨"A", "X1", "月售1", "1"⟩, ⟨"C", "B1", "月售1", "1"⟩]
        "A3" "A" "B"
      = ([⟨"A", "A1", "月售1", "1"⟩, ⟨"A", "A3", "月售1", "1"⟩,
          ⟨"B", "X1", "月售1", "1"⟩, ⟨"C", "B1", "月售1", "1"⟩], some 1) := by
  exact ⟨by decide, by decide⟩

/-- Claim C2 counterexample: with no zones, a divider at Y=700, and known
next category `"B"`, a product at Y=800 (below the divider) is attributed
to the current category `"A"`, not to `"B"` as the claim states — the
front-row protection (Y=800 lies in the top 35% of a 2560-high screen)
overrides the divider split. -/
theorem c2_counterexample :
    attributeCategory [] "A" "BOUNDARY" 700 "B" 2560 800 = some "A" ∧
      (some "A" : Option String) ≠ some "B" := by
  exact ⟨by decide, by decide⟩

/-- Claim C2 (amended): in boundary mode with a positive divider and no
zones, products above the divider keep the current category; products at
or below the divider are skipped when the next category is unknown; a
product at or below the divider with a known next category goes to the
next category when it lies at or below 35% of the screen height, and is
re-attributed to the current category (front-row protection) when it lies
in the top 35%. -/
theorem c2_boundary_split :
    ∀ (cat next : String) (screenH dividerY y : Nat),
      0 < dividerY →
      (y < dividerY →
          attributeCategory [] cat "BOUNDARY" dividerY next screenH y = some cat) ∧
        (dividerY ≤ y → next = "" →
          attributeCategory [] cat "BOUNDARY" dividerY next screenH y = none) ∧
        (dividerY ≤ y → next ≠ "" → 35 * screenH ≤ 100 * y →
          attributeCategory [] cat "BOUNDARY" dividerY next screenH y = some next) ∧
        (dividerY ≤ y → next ≠ "" → 100 * y < 35 * screenH →
          attributeCategory [] cat "BOUNDARY" dividerY next screenH y = some cat) := by
  intro cat next screenH dividerY y hd
  refine ⟨?_, ?_, ?_, ?_⟩
  · intro hy
    simp [attributeCategory, hd, hy]
  · intro hy hnext
    have hy2 : ¬ y < dividerY := Nat.not_lt.mpr hy
    simp [attributeCategory, hd, hy2, hnext]
  · intro hy hnext h35
    have hy2 : ¬ y < dividerY := Nat.not_lt.mpr hy
    have h352 : ¬ 100 * y < 35 * screenH := Nat.not_lt.mpr h35
    simp [attributeCategory, hd, hy2, hnext, h352]
  · intro hy hnext h35
    have hy2 : ¬ y < dividerY := Nat.not_lt.mpr hy
    by_cases hnc : next = cat
    · subst hnc
      simp [attributeCategory, hd, hy2, hnext]
    · simp [attributeCategory, hd, hy2, hnext, h35, hnc]

/-- Witness for claim C2 (amended) at divider Y=700 on a 2560-high screen:
Y=650 stays with `"A"`; Y=900 with unknown next category is skipped; Y=900
with next category `"B"` goes to `"B"`; Y=800 is pulled back to `"A"` by
the front-row protection. -/
theorem c2_boundary_split_witness :
    attributeCategory [] "A" "BOUNDARY" 700 "B" 2560 650 = some "A" ∧
      attributeCategory [] "A" "BOUNDARY" 700 "" 2560 900 = none ∧
      attributeCategory [] "A" "BOUNDARY" 700 "B" 2560 900 = some "B" ∧
      attributeCategory [] "A" "BOUNDARY" 700 "B" 2560 800 = some "A" :=
  ⟨(c2_boundary_split "A" "B" 2560 700 650 (by decide)).1 (by decide),
    (c2_boundary_split "A" "" 2560 700 900 (by decide)).2.1 (by decide) rfl,
    (c2_boundary_split "A" "B" 2560 700 900 (by decide)).2.2.1 (by decide) (by decide) (by decide),
    (c2_boundary_split "A" "B" 2560 700 800 (by decide)).2.2.2 (by decide) (by decide) (by decide)⟩

/-- Claim C6: the zero-new-data threshold is the configured value on a
non-last category and 10 on the last; with the default threshold 3,
three consecutive zero-new-item iterations on a non-last category pause
the worker with `risk_control_hit` and the full category list persisted,
while on the last category ten such iterations complete the shop with no
pause and no risk-control flag; fewer iterations just carry the
counter. -/
theorem c6_risk_control_threshold :
    ∀ (cats : List String) (s : IterState) (thr : Nat),
      currentThreshold false thr = thr ∧
        currentThreshold true thr = 10 ∧
        runZeroIters false 3 cats 3 0 s
          = (IterOutcome.riskPause,
              { store := mark_risk_control s.store cats, workerStatus := "paused" }) ∧
        (mark_risk_control s.store cats).state.risk_control_hit = true ∧
        (mark_risk_control s.store cats).state.all_categories = cats ∧
        runZeroIters true 3 cats 10 0 s = (IterOutcome.completeShop, s) ∧
        (∀ n, n < 3 → runZeroIters false 3 cats n 0 s = (IterOutcome.next n, s)) ∧
        (∀ n, n < 10 → runZeroIters true 3 cats n 0 s = (IterOutcome.next n, s)) := by
  intro cats s thr
  refine ⟨rfl, rfl, rfl, rfl, rfl, rfl, ?_, ?_⟩
  · intro n hn
    interval_cases n <;> rfl
  · intro n hn
    interval_cases n <;> rfl

/-- Witness for claim C6: two zero-new-item iterations on a non-last
category with threshold 3 merely carry the counter to 2 without pausing. -/
theorem c6_risk_control_threshold_witness :
    runZeroIters false 3 ["c1", "c2"] 2 0 { store := initialStateStore, workerStatus := "running" }
      = (IterOutcome.next 2, { store := initialStateStore, workerStatus := "running" }) :=
  (c6_risk_control_threshold ["c1", "c2"]
      { store := initialStateStore, workerStatus := "running" } 3).2.2.2.2.2.2.1 2 (by decide)

theorem buildCategoryZones_map_ystart (titles : List CategoryTitle) (h : Nat) :
    (buildCategoryZones titles h).map CategoryZone.y_start = titles.map CategoryTitle.y := by
  induction titles with
  | nil => rfl
  | cons t rest ih => simp [buildCategoryZones, ih]

theorem findCategoryByY_above_all (y : Nat) (zones : List CategoryZone) (fb : String)
    (h : ∀ z ∈ zones, y < z.y_start) : findCategoryByY y zones fb = fb := by
  cases zones with
  | nil => rfl
  | cons z0 zs =>
    have hfind : (z0 :: zs).find? (fun z => decide (z.y_start ≤ y) && decide (y < z.y_end))
        = none := by
      rw [List.find?_eq_none]
      intro z hz
      simp only [Bool.and_eq_true, decide_eq_true_eq, not_and]
      intro hle
      exact absurd hle (Nat.not_le.mpr (h z hz))
    cases hl : (z0 :: zs).getLast? with
    | none => simp at hl
    | some zl =>
      have hzl : zl ∈ z0 :: zs := List.mem_of_mem_getLast? (by rw [hl]; rfl)
      simp only [findCategoryByY, hfind, hl]
      rw [if_neg (Nat.not_le.mpr (h zl hzl))]

theorem build_zone_ystart_ge (t2 : CategoryTitle) (rest2 : List CategoryTitle) (h : Nat)
    (hs : List.Pairwise (fun a b => a.y ≤ b.y) (t2 :: rest2)) (z : CategoryZone)
    (hz : z ∈ buildCategoryZones (t2 :: rest2) h) : t2.y ≤ z.y_start := by
  have hmap : z.y_start ∈ (t2 :: rest2).map CategoryTitle.y := by
    rw [← buildCategoryZones_map_ystart (t2 :: rest2) h]
    exact List.mem_map_of_mem CategoryZone.y_start hz
  simp only [List.map_cons, List.mem_cons] at hmap
  rcases hmap with h1 | h1
  · exact h1 ▸ Nat.le_refl _
  · obtain ⟨a, ha, hay⟩ := List.mem_map.mp h1
    exact hay ▸ (List.pairwise_cons.mp hs).1 a ha

theorem build_find?_containing (titles : List CategoryTitle) (h y : Nat) (z : CategoryZone)
    (hs : List.Pairwise (fun a b => a.y ≤ b.y) titles)
    (hz : z ∈ buildCategoryZones titles h) (h1 : z.y_start ≤ y) (h2 : y < z.y_end) :
    (buildCategoryZones titles h).find? (fun w => decide (w.y_start ≤ y) && decide (y < w.y_end))
      = some z := by
  induction titles with
  | nil => cases hz
  | cons t rest ih =>
    cases rest with
    | nil =>
      simp only [buildCategoryZones, List.mem_singleton] at hz
      subst hz
      simp only [buildCategoryZones]
      rw [List.find?_cons_of_pos]
      simp [h1, h2]
    | cons t2 rest2 =>
      have hstep : buildCategoryZones (t :: t2 :: rest2) h
          = { name := t.name, y_start := t.y, y_end := t2.y }
              :: buildCategoryZones (t2 :: rest2) h := rfl
      rw [hstep] at hz ⊢
      rcases List.mem_cons.mp hz with rfl | hz2
      · rw [List.find?_cons_of_pos]
        simp only [Bool.and_eq_true, decide_eq_true_eq]
        exact ⟨h1, h2⟩
      · have hge : t2.y ≤ z.y_start :=
          build_zone_ystart_ge t2 rest2 h (List.pairwise_cons.mp hs).2 z hz2
        -- the head zone ends at t2.y ≤ z.y_start ≤ y, so it cannot contain y
        rw [List.find?_cons_of_neg]
        · exact ih (List.pairwise_cons.mp hs).2 hz2
        · simp only [Bool.and_eq_true, decide_eq_true_eq, not_and]
          intro _
          exact Nat.not_lt.mpr (Nat.le_trans hge h1)

theorem findCategoryByY_of_find? (y : Nat) (zones : List CategoryZone) (fb : String)
    (z : CategoryZone)
    (hf : zones.find? (fun w => decide (w.y_start ≤ y) && decide (y < w.y_end)) = some z) :
    findCategoryByY y zones fb = z.name := by
  cases zones with
  | nil => simp at hf
  | cons z0 zs => simp only [findCategoryByY, hf]

/-- Claim C3: zone resolution makes each (Y-sorted) title the start of a
zone running to the next title's Y (or the screen bottom); lookup by Y
returns the containing zone's name; an item above the first title, or any
item when no titles were found, falls back to the caller-supplied
category.  Concretely with titles `{100 → "A", 800 → "B"}` on a 2560-high
screen: Y=500 resolves to `"A"`, Y=900 to `"B"`, Y=50 to the fallback. -/
theorem c3_zone_resolution :
    (buildCategoryZones [⟨"A", 100⟩, ⟨"B", 800⟩] 2560
          = [⟨"A", 100, 800⟩, ⟨"B", 800, 2560⟩] ∧
        findCategoryByY 500 (buildCategoryZones [⟨"A", 100⟩, ⟨"B", 800⟩] 2560) "CUR" = "A" ∧
        findCategoryByY 900 (buildCategoryZones [⟨"A", 100⟩, ⟨"B", 800⟩] 2560) "CUR" = "B" ∧
        findCategoryByY 50 (buildCategoryZones [⟨"A", 100⟩, ⟨"B", 800⟩] 2560) "CUR" = "CUR") ∧
      (∀ (y h : Nat) (fb : String), findCategoryByY y (buildCategoryZones [] h) fb = fb) ∧
      (∀ (t0 : CategoryTitle) (rest : List CategoryTitle) (h y : Nat) (fb : String),
        List.Pairwise (fun a b => a.y ≤ b.y) (t0 :: rest) → y < t0.y →
        findCategoryByY y (buildCategoryZones (t0 :: rest) h) fb = fb) ∧
      ∀ (titles : List CategoryTitle) (h y : Nat) (fb : String) (z : CategoryZone),
        List.Pairwise (fun a b => a.y ≤ b.y) titles → z ∈ buildCategoryZones titles h →
        z.y_start ≤ y → y < z.y_end →
        findCategoryByY y (buildCategoryZones titles h) fb = z.name := by
  refine ⟨⟨by decide, by decide, by decide, by decide⟩, ?_, ?_, ?_⟩
  · intro y h fb
    rfl
  · intro t0 rest h y fb hs hy
    apply findCategoryByY_above_all
    intro z hz
    have hmap : z.y_start ∈ (t0 :: rest).map CategoryTitle.y := by
      rw [← buildCategoryZones_map_ystart (t0 :: rest) h]
      exact List.mem_map_of_mem CategoryZone.y_start hz
    simp only [List.map_cons, List.mem_cons] at hmap
    rcases hmap with h1 | h1
    · exact h1 ▸ hy
    · obtain ⟨a, ha, hay⟩ := List.mem_map.mp h1
      exact hay ▸ Nat.lt_of_lt_of_le hy ((List.pairwise_cons.mp hs).1 a ha)
  · intro titles h y fb z hs hz h1 h2
    exact findCategoryByY_of_find? y _ fb z (build_find?_containing titles h y z hs hz h1 h2)

/-- Witness for claim C3: with the synthetic titles the above-first-title
item at Y=50 falls back and the item at Y=900 resolves to the containing
zone `"B"`. -/
theorem c3_zone_resolution_witness :
    findCategoryByY 50 (buildCategoryZones [⟨"A", 100⟩, ⟨"B", 800⟩] 2560) "CUR" = "CUR" ∧
      findCategoryByY 900 (buildCategoryZones [⟨"A", 100⟩, ⟨"B", 800⟩] 2560) "CUR" = "B" :=
  ⟨c3_zone_resolution.2.2.1 ⟨"A", 100⟩ [⟨"B", 800⟩] 2560 50 "CUR" (by decide) (by decide),
    c3_zone_resolution.2.2.2 [⟨"A", 100⟩, ⟨"B", 800⟩] 2560 900 "CUR" ⟨"B", 800, 2560⟩
      (by decide) (by decide) (by decide) (by decide)⟩

theorem mem_dropWhile_of_neg {α : Type} (p : α → Bool) (l : List α) (c : α)
    (hc : c ∈ l) (hp : p c = false) : c ∈ l.dropWhile p := by
  induction l with
  | nil => cases hc
  | cons a t ih =>
    rw [List.dropWhile_cons]
    rcases List.mem_cons.mp hc with rfl | hct
    · rw [hp]
      simp
    · by_cases ha : p a = true
      · rw [if_pos ha]
        exact ih hct
      · rw [Bool.not_eq_true] at ha
        rw [ha]
        simp only [Bool.false_eq_true, if_false]
        exact List.mem_cons_of_mem a hct

theorem dropWhile_head_neg {α : Type} (p : α → Bool) (l : List α) (c : α) (rest : List α)
    (h : l.dropWhile p = c :: rest) : p c = false := by
  induction l with
  | nil => simp at h
  | cons a t ih =>
    rw [List.dropWhile_cons] at h
    by_cases ha : p a = true
    · rw [if_pos ha] at h
      exact ih h
    · rw [if_neg ha] at h
      cases h
      exact eq_false_of_ne_true ha

theorem digit_not_pyWhitespace (c : Char) (hd : c.isDigit = true) : isPyWhitespace c = false := by
  unfold isPyWhitespace
  by_contra h
  simp only [Bool.not_eq_false, Bool.or_eq_true, decide_eq_true_eq] at h
  rcases h with ((((h | h) | h) | h) | h) | h <;> subst h <;> exact absurd hd (by decide)

theorem firstDigitGroup_none_of_strip_empty (s : String) (h : pyStrip s = "") :
    firstDigitGroup s = none := by
  unfold firstDigitGroup
  cases hD : s.toList.dropWhile (fun c => !c.isDigit) with
  | nil => rfl
  | cons c rest =>
    exfalso
    have hcd : c.isDigit = true := by
      have := dropWhile_head_neg (fun c => !c.isDigit) s.toList c rest hD
      simpa using this
    have hcl : c ∈ s.toList :=
      (List.dropWhile_sublist (fun c => !c.isDigit)).mem (hD ▸ List.mem_cons_self c rest)
    have hw : isPyWhitespace c = false := digit_not_pyWhitespace c hcd
    have h1 : c ∈ s.toList.dropWhile isPyWhitespace := mem_dropWhile_of_neg _ _ c hcl hw
    have h2 : c ∈ ((s.toList.dropWhile isPyWhitespace).reverse.dropWhile isPyWhitespace).reverse := by
      rw [List.mem_reverse]
      exact mem_dropWhile_of_neg _ _ c (List.mem_reverse.mpr h1) hw
    have h3 : (pyStrip s).toList
        = ((s.toList.dropWhile isPyWhitespace).reverse.dropWhile isPyWhitespace).reverse := rfl
    rw [h] at h3
    rw [← h3] at h2
    cases h2

theorem create_record_month_sales (cat name ms price : String) :
    (create_drug_record cat name ms price).monthly_sales
      = "月售" ++ (firstDigitGroup ms).getD "0" := by
  by_cases h0 : ms = ""
  · subst h0
    rfl
  · by_cases h1 : pyStrip ms = ""
    · rw [firstDigitGroup_none_of_strip_empty ms h1]
      simp [create_drug_record, h0, h1]
    · simp [create_drug_record, h0, h1]

theorem extractSales_filter_eq (texts : List String) (priceText : String) :
    extractSales texts priceText
      = extractSales (texts.filter fun t => containsSub t.toList "月售".toList) priceText := by
  unfold extractSales
  suffices hgen : ∀ acc : String,
      texts.foldl
          (fun acc t =>
            if t = priceText then acc
            else if containsSub t.toList "月售".toList then
              match matchMonthSold t.toList with
              | some ds => String.mk ds
              | none => acc
            else acc) acc
        = (texts.filter fun t => containsSub t.toList "月售".toList).foldl
          (fun acc t =>
            if t = priceText then acc
            else if containsSub t.toList "月售".toList then
              match matchMonthSold t.toList with
              | some ds => String.mk ds
              | none => acc
            else acc) acc by
    exact hgen "0"
  induction texts with
  | nil => intro acc; rfl
  | cons t rest ih =>
    intro acc
    by_cases hc : containsSub t.toList "月售".toList = true
    · simp only [List.filter_cons, hc, if_true, List.foldl_cons]
      exact ih _
    · rw [Bool.not_eq_true] at hc
      simp only [List.filter_cons, hc, Bool.false_eq_true, if_false, List.foldl_cons]
      by_cases hp : t = priceText
      · simp only [hp, if_pos rfl]
        exact ih _
      · simp only [if_neg hp, hc, Bool.false_eq_true, if_false]
        exact ih _

theorem extractSales_no_marker (texts : List String) (priceText : String)
    (h : ∀ t ∈ texts, containsSub t.toList "月售".toList = false) :
    extractSales texts priceText = "0" := by
  rw [extractSales_filter_eq]
  have hemp : (texts.filter fun t => containsSub t.toList "月售".toList) = [] := by
    rw [List.filter_eq_nil_iff]
    intro t ht
    simpa using h t ht
  rw [hemp]
  rfl

/-- Claim C8: every accepted record's monthly sales field is normalized to
`"月售" + N` where `N` is the first digit group of the extracted sales
text (or `0` when there is none), and the sales quantity is extracted
only from container texts bearing the monthly-sold marker `月售` —
filtering the texts down to the `月售`-bearing ones changes nothing, and a
container whose texts all lack the marker (e.g. total-sold `已售` texts)
yields the default `"0"`. -/
theorem c8_monthly_sales_normalization :
    ∀ (texts : List String) (priceText cat name : String),
      (∀ ms, (create_drug_record cat name ms priceText).monthly_sales
          = "月售" ++ (firstDigitGroup ms).getD "0") ∧
        extractSales texts priceText
          = extractSales (texts.filter fun t => containsSub t.toList "月售".toList) priceText ∧
        ((∀ t ∈ texts, containsSub t.toList "月售".toList = false) →
          extractSales texts priceText = "0") ∧
        (create_drug_record cat name (extractSales texts priceText) priceText).monthly_sales
          = "月售" ++ (firstDigitGroup (extractSales texts priceText)).getD "0" :=
  fun texts priceText cat name =>
    ⟨fun ms => create_record_month_sales cat name ms priceText,
      extractSales_filter_eq texts priceText,
      fun h => extractSales_no_marker texts priceText h,
      create_record_month_sales cat name (extractSales texts priceText) priceText⟩

/-- Witness for claim C8: a card whose only sales-like text bears the
total-sold marker `已售` yields the default quantity `月售0`. -/
theorem c8_monthly_sales_normalization_witness :
    extractSales ["已售100", "优惠仅剩"] "12" = "0" :=
  (c8_monthly_sales_normalization ["已售100", "优惠仅剩"] "12" "A" "n").2.2.1 (by decide)

theorem firstTruncIdx_none_iff (l : List Char) :
    firstTruncIdx l = none ↔ l.any isTruncChar = false := by
  induction l with
  | nil => simp [firstTruncIdx]
  | cons c rest ih =>
    simp only [firstTruncIdx, List.any_cons]
    by_cases hc : isTruncChar c = true
    · simp [hc]
    · rw [Bool.not_eq_true] at hc
      simp [hc, ih]

theorem firstTruncIdx_drop (l : List Char) (i : Nat) (h : firstTruncIdx l = some i) :
    l.drop i = l.dropWhile fun c => !isTruncChar c := by
  induction l generalizing i with
  | nil => simp [firstTruncIdx] at h
  | cons c rest ih =>
    simp only [firstTruncIdx] at h
    by_cases hc : isTruncChar c = true
    · rw [if_pos hc] at h
      cases h
      simp [List.dropWhile_cons, hc]
    · rw [if_neg hc] at h
      obtain ⟨j, hj, hji⟩ := Option.map_eq_some'.mp h
      rw [← hji]
      rw [Bool.not_eq_true] at hc
      simp only [List.drop_succ_cons, List.dropWhile_cons, hc]
      simp only [Bool.not_false, if_true]
      exact ih j hj

/-- Claim C9 counterexample: the name `"TT【abcd"` begins with two
decorative latin letters followed by the full-width bracket `【` (a
bracket-like delimiter per the spec's own definition `[`/`【`), yet the
cleaner returns it unchanged instead of truncating to `"【abcd"` — the
truncation regex matches only `[` and CJK characters. -/
theorem c9_counterexample :
    cleanProductName "TT【abcd" = "TT【abcd" ∧ cleanProductName "TT【abcd" ≠ "【abcd" := by
  exact ⟨by decide, by decide⟩

/-- Claim C9 (amended): after removing the decorative marker, the cleaner
returns the suffix starting at the first `[`-or-CJK (U+4E00..U+9FA5)
character, and returns the marker-stripped name unchanged when no such
character occurs; the full-width bracket `【` is not a truncation
trigger.  The docstring examples hold. -/
theorem c9_clean_product_name :
    ∀ name : String,
      ((stripDecorativeMarkers name).toList.any isTruncChar = true →
          (cleanProductName name).toList
            = (stripDecorativeMarkers name).toList.dropWhile fun c => !isTruncChar c) ∧
        ((stripDecorativeMarkers name).toList.any isTruncChar = false →
          cleanProductName name = stripDecorativeMarkers name) ∧
        isTruncChar '[' = true ∧ isTruncChar '药' = true ∧ isTruncChar '【' = false ∧
        cleanProductName "TTTTT[力度伸]维生素C咀嚼片" = "[力度伸]维生素C咀嚼片" ∧
        cleanProductName "健康年 [健安适]维生素" = "[健安适]维生素" := by
  intro name
  refine ⟨?_, ?_, by decide, by decide, by decide, by decide, by decide⟩
  · intro h
    by_cases h0 : name = ""
    · exfalso
      subst h0
      exact absurd h (by decide)
    · cases hf : firstTruncIdx (stripDecorativeMarkers name).toList with
      | none =>
        rw [firstTruncIdx_none_iff] at hf
        rw [hf] at h
        cases h
      | some i =>
        simp only [cleanProductName, if_neg h0, hf]
        exact firstTruncIdx_drop _ i hf
  · intro h
    by_cases h0 : name = ""
    · rw [h0]
      decide
    · rw [← firstTruncIdx_none_iff] at h
      simp only [cleanProductName, if_neg h0, h]

/-- Witness for claim C9 (amended) on the docstring example: the cleaned
name is the suffix from the first truncation trigger. -/
theorem c9_clean_product_name_witness :
    (cleanProductName "TTTTT[力度伸]维生素C咀嚼片").toList
      = (stripDecorativeMarkers "TTTTT[力度伸]维生素C咀嚼片").toList.dropWhile
          fun c => !isTruncChar c :=
  (c9_clean_product_name "TTTTT[力度伸]维生素C咀嚼片").1 (by decide)
